import Mathlib

/-!
Verification of the Nuxt 3 deserialization engine in
`nuxt_scraper/parser.py`: the reference hydrator `_hydrate_nuxt3_value`,
the entry point `deserialize_nuxt3_data`, and the extraction-result
parser `parse_nuxt_result`.

The embedding models Python values as a JSON-like inductive type `JVal`
(the repository only ever feeds `json.loads` output or browser-evaluated
JSON-serializable values into these functions; non-integer JSON numbers
are elided — on every path relevant here they behave exactly like the
other opaque primitives).  Hydrated results live in an explicit heap of
mutable container objects (`HObj`, addressed by `Nat`), so that Python
object identity — the essence of the cycle-handling in the source — is
observable.  The hydration cache is an association list from slot index
to hydrated value.  The recursion of `_hydrate_nuxt3_value` is fuel
indexed; a theorem below shows that `array length + 1` fuel always
suffices, hence the fuel is a faithful rendering of the unbounded
recursion of the source.

External library behaviour that the source calls into is abstracted as
explicit parameters: `Ext.fromtsOk` (whether `datetime.fromtimestamp`
accepts a millisecond timestamp — its exact range is platform
dependent), `Ext.reOk` (whether `re.compile` accepts a pattern), and a
`jparse` function standing for `json.loads`.  `int(...)` on strings is
modelled concretely by `pyIntOfString`.
-/

namespace NuxtScraper

/-- A JSON-like Python value: the value universe flowing through the
parser (output of `json.loads` / browser evaluation).  Object entries
keep their insertion order, and — as for a real Python `dict` — keys
are assumed unique. -/
inductive JVal where
  | null
  | bool (b : Bool)
  | int (n : Int)
  | str (s : String)
  | arr (items : List JVal)
  | obj (entries : List (String × JVal))
deriving Repr

/-- A hydrated Python value.  Immutable primitives are carried inline;
mutable containers created by the hydrator are heap references
(`ref`); compound input values that the source returns as-is
(`return index_or_value` for non-integers, and the malformed-tag
fallbacks `return value`) are `rawObj`, keeping the original `JVal`. -/
inductive HVal where
  | null
  | bool (b : Bool)
  | int (n : Int)
  | str (s : String)
  | date (ms : Int)
  | rawObj (v : JVal)
  | ref (a : Nat)
deriving Repr

/-- A heap object: a container freshly allocated by the hydrator.
`dict` entries keep insertion order ( keys are `HVal`s: plain objects
use `.str` keys, `$m` maps use arbitrary hydrated keys); `set` keeps
its elements in insertion order, deduplicated at `add` time; `regex`
models a compiled `re.Pattern` (identity-hashable, so heap-allocated). -/
inductive HObj where
  | dict (entries : List (HVal × HVal))
  | list (items : List HVal)
  | set (items : List HVal)
  | regex (pattern : String) (ignorecase multiline dotall : Bool)
deriving Repr

/-- The mutable state threaded through one hydration run: the heap of
allocated containers (addresses are positions; allocation appends) and
the memo cache from slot index to hydrated value. -/
structure St where
  heap : List HObj
  cache : List (Int × HVal)
deriving Repr

/-- Result of a fuel-indexed computation: success with a value and the
updated state, a propagating Python exception (`TypeError`/`ValueError`
sites the source does not catch), or fuel exhaustion (which the
termination theorem below rules out for sufficient fuel). -/
inductive Res (α : Type) where
  | ok (val : α) (s : St)
  | err
  | out
deriving Repr

/-- Abstracted behaviour of the external libraries the decoder calls. -/
structure Ext where
  /-- Does `datetime.fromtimestamp(ms / 1000)` succeed?  (Its valid
  range is platform and timezone dependent.) -/
  fromtsOk : Int → Bool
  /-- Does `re.compile(pattern, flags)` succeed?  (The `i`/`m`/`s`
  flags never cause a compile failure, so only the pattern matters.) -/
  reOk : String → Bool

/-- Python `bool` as `int` (`bool` is a subclass of `int`). -/
def boolInt (b : Bool) : Int := if b then 1 else 0

/-- `isinstance(index_or_value, int)` together with the integer value:
Python `bool` IS an `int` (`True` counts as index 1), so both `.int`
and `.bool` are treated as slot references. -/
def pyIndex : JVal → Option Int
  | .int n => some n
  | .bool b => some (boolInt b)
  | _ => none

/-- The non-integer passthrough of line 91-92 of the source:
`return index_or_value` as a hydrated value.  Only `.null`, `.str`,
`.arr` and `.obj` can reach this (integers and booleans are caught by
`pyIndex`). -/
def passthroughVal : JVal → HVal
  | .null => .null
  | .str s => .str s
  | v => .rawObj v

/-- Python truthiness of a `JVal`. -/
def pyTruthy : JVal → Bool
  | .null => false
  | .bool b => b
  | .int n => n != 0
  | .str s => !(s.isEmpty)
  | .arr items => !items.isEmpty
  | .obj entries => !entries.isEmpty

/-- Python `==` between hydrated values, as needed for `set` membership
and `dict` key lookup.  It is only ever consulted between hashable
values (hashability is checked first, and only hashable values are
stored in sets / as map keys); on those it is: value equality with the
`bool`/`int` cross-identification (`True == 1`), and identity for heap
references (compiled patterns compare by identity). -/
def pyEq : HVal → HVal → Bool
  | .null, .null => true
  | .bool a, .bool b => a == b
  | .bool a, .int n => boolInt a == n
  | .int n, .bool a => n == boolInt a
  | .int m, .int n => m == n
  | .str a, .str b => a == b
  | .date a, .date b => a == b
  | .ref a, .ref b => a == b
  | _, _ => false

/-- Python hashability of a hydrated value: primitives and `datetime`s
are hashable; dicts, lists and sets are not; a heap reference is
hashable exactly when it denotes a compiled pattern.  (`rawObj` only
ever holds a sequence or a mapping — see `passthroughVal` and the
fallback sites in `hydrateBody` — hence unhashable.) -/
def hashable (heap : List HObj) : HVal → Bool
  | .rawObj _ => false
  | .ref a =>
    match heap[a]? with
    | some (.regex _ _ _ _) => true
    | _ => false
  | _ => true

/-- `result.add(x)` on a Python set: raises `TypeError` (`none`) on an
unhashable element; otherwise keeps the first of equal elements. -/
def setAdd (heap : List HObj) (items : List HVal) (x : HVal) :
    Option (List HVal) :=
  if hashable heap x then
    some (if items.any (fun y => pyEq y x) then items else items ++ [x])
  else none

/-- `result[k] = v` on a Python dict: raises `TypeError` (`none`) on an
unhashable key; on an existing (equal) key overwrites the value but
keeps the original key object and its position; otherwise appends. -/
def dictSetItem (heap : List HObj) (entries : List (HVal × HVal))
    (k v : HVal) : Option (List (HVal × HVal)) :=
  if hashable heap k then
    some (if entries.any (fun e => pyEq e.fst k) then
            entries.map (fun e => if pyEq e.fst k then (e.fst, v) else e)
          else entries ++ [(k, v)])
  else none

/-- Python iteration over a value (`for x in v`): lists yield their
items, strings their one-character substrings, dicts their keys;
anything else raises `TypeError` (`none`). -/
def pyIter : JVal → Option (List JVal)
  | .arr items => some items
  | .str s => some (s.toList.map (fun c => .str (String.mk [c])))
  | .obj entries => some (entries.map (fun kv => .str kv.fst))
  | _ => none

/-- Python 2-tuple unpacking `a, b = v`: succeeds exactly when `v`
iterates to exactly two items. -/
def unpack2 (v : JVal) : Option (JVal × JVal) :=
  match pyIter v with
  | some [a, b] => some (a, b)
  | _ => none

/-- Tail of a Python integer literal after the first digit: digit runs
separated by single underscores. -/
def digitTail : List Char → Bool
  | [] => true
  | '_' :: c :: rest => c.isDigit && digitTail rest
  | c :: rest => c.isDigit && digitTail rest

/-- A valid Python integer-literal digit sequence (with underscores). -/
def digitsOk : List Char → Bool
  | [] => false
  | c :: rest => c.isDigit && digitTail rest

/-- Numeric value of a digit/underscore sequence. -/
def natOfDigits (cs : List Char) : Nat :=
  cs.foldl (fun a c => if c.isDigit then a * 10 + (c.toNat - 48) else a) 0

/-- The characters of `s` with surrounding whitespace stripped
(Python `str.strip()`; the exotic extra whitespace code points CPython
also strips are elided). -/
def stripChars (s : String) : List Char :=
  ((s.toList.dropWhile Char.isWhitespace).reverse.dropWhile
    Char.isWhitespace).reverse

/-- Python `int(s)` on a string: surrounding whitespace stripped, an
optional sign, then digits with optional single underscores between
them; `none` models the `ValueError` on anything else.  (Non-ASCII
digits, accepted by CPython, are elided.) -/
def pyIntOfString (s : String) : Option Int :=
  match stripChars s with
  | '+' :: cs => if digitsOk cs then some (natOfDigits cs) else none
  | '-' :: cs => if digitsOk cs then some (-(natOfDigits cs : Int)) else none
  | cs => if digitsOk cs then some (natOfDigits cs) else none

/-- Splits a `/pattern/flags` string: the source requires
`pattern_str.startswith('/')` and a second `'/'` after it, then splits
at the last `'/'` (`rfind`), yielding the pattern and the flag
characters. -/
def parseRegexForm (s : String) : Option (String × List Char) :=
  match s.toList with
  | '/' :: rest =>
    if rest.contains '/' then
      let lastInRest := rest.length - 1 - (rest.reverse.indexOf '/')
      some (String.mk (rest.take lastInRest), rest.drop (lastInRest + 1))
    else none
  | _ => none

/-- Inserts a cache entry (the source's `cache[index_or_value] = v`;
every insertion site in the source is reached only when the index is
not yet cached, so entries are never overwritten). -/
def stIns (s : St) (i : Int) (v : HVal) : St :=
  { s with cache := (i, v) :: s.cache }

/-- The `"$d"` branch: `datetime.fromtimestamp(value["$d"] / 1000)`
with `except (ValueError, TypeError, OverflowError)` falling back to
the original mapping.  An `int` (or `bool`) payload divides fine and
succeeds when in `fromtimestamp`'s range; every other payload raises
`TypeError` at the division, which is caught. -/
def hydrateDate (E : Ext) (i : Int) (orig : JVal) (payload : JVal)
    (s : St) : Res HVal :=
  match payload with
  | .int n => if E.fromtsOk n then .ok (.date n) (stIns s i (.date n))
              else .ok (.rawObj orig) (stIns s i (.rawObj orig))
  | .bool b => if E.fromtsOk (boolInt b) then
                 .ok (.date (boolInt b)) (stIns s i (.date (boolInt b)))
               else .ok (.rawObj orig) (stIns s i (.rawObj orig))
  | _ => .ok (.rawObj orig) (stIns s i (.rawObj orig))

/-- The `"$b"` branch: `int(value["$b"])` with `except ValueError`
falling back to the original mapping.  A string that `int` rejects
raises `ValueError` (caught → fallback); an `int`/`bool` payload
succeeds outright; any other payload (`None`, list, dict) raises
`TypeError`, which the source does NOT catch — it propagates. -/
def hydrateBigint (i : Int) (orig : JVal) (payload : JVal) (s : St) :
    Res HVal :=
  match payload with
  | .str t =>
    match pyIntOfString t with
    | some n => .ok (.int n) (stIns s i (.int n))
    | none => .ok (.rawObj orig) (stIns s i (.rawObj orig))
  | .int n => .ok (.int n) (stIns s i (.int n))
  | .bool b => .ok (.int (boolInt b)) (stIns s i (.int (boolInt b)))
  | _ => .err

/-- The `"$r"` branch, whose whole body sits under `except Exception`:
a string payload of the form `/pattern/flags` is compiled (compile
failure → fallback to the original mapping); a string payload not of
that form is returned raw; a non-string payload raises
`AttributeError` at `.startswith`, caught → fallback to the mapping. -/
def hydrateRegex (E : Ext) (i : Int) (orig : JVal) (payload : JVal)
    (s : St) : Res HVal :=
  match payload with
  | .str t =>
    match parseRegexForm t with
    | some (pat, fl) =>
      if E.reOk pat then
        .ok (.ref s.heap.length)
          { heap := s.heap ++
              [.regex pat (fl.contains 'i') (fl.contains 'm')
                (fl.contains 's')],
            cache := (i, .ref s.heap.length) :: s.cache }
      else .ok (.rawObj orig) (stIns s i (.rawObj orig))
    | none => .ok (.str t) (stIns s i (.str t))
  | _ => .ok (.rawObj orig) (stIns s i (.rawObj orig))

/-- One step of hydrating a plain sequence slot: hydrate the item and
append it. -/
def listStep (h : JVal → St → Res HVal) :
    Res (List HVal) → JVal → Res (List HVal)
  | .ok acc s, item =>
    match h item s with
    | .ok v s' => .ok (acc ++ [v]) s'
    | .err => .err
    | .out => .out
  | .err, _ => .err
  | .out, _ => .out

/-- One step of the `"$s"` branch loop: hydrate the item and `add` it
to the set (which may raise `TypeError` on an unhashable element). -/
def setStep (h : JVal → St → Res HVal) :
    Res (List HVal) → JVal → Res (List HVal)
  | .ok acc s, item =>
    match h item s with
    | .ok v s' =>
      match setAdd s'.heap acc v with
      | some acc' => .ok acc' s'
      | none => .err
    | .err => .err
    | .out => .out
  | .err, _ => .err
  | .out, _ => .out

/-- One step of the `"$m"` branch loop: unpack the `[key, value]` pair
(raising on a malformed entry), hydrate key then value, then
`result[key] = value` (which may raise on an unhashable key). -/
def mapStep (h : JVal → St → Res HVal) :
    Res (List (HVal × HVal)) → JVal → Res (List (HVal × HVal))
  | .ok acc s, pairv =>
    match unpack2 pairv with
    | none => .err
    | some (kj, vj) =>
      match h kj s with
      | .ok hk s' =>
        match h vj s' with
        | .ok hv s'' =>
          match dictSetItem s''.heap acc hk hv with
          | some acc' => .ok acc' s''
          | none => .err
        | .err => .err
        | .out => .out
      | .err => .err
      | .out => .out
  | .err, _ => .err
  | .out, _ => .out

/-- One step of the plain-object loop: hydrate the value and store it
under the (string, hence hashable) key. -/
def objStep (h : JVal → St → Res HVal) :
    Res (List (HVal × HVal)) → String × JVal → Res (List (HVal × HVal))
  | .ok acc s, (k, v) =>
    match h v s with
    | .ok hv s' =>
      match dictSetItem s'.heap acc (.str k) hv with
      | some acc' => .ok acc' s'
      | none => .err
    | .err => .err
    | .out => .out
  | .err, _ => .err
  | .out, _ => .out

/-- The body of `_hydrate_nuxt3_value`, one recursion level: `h` is the
recursive call.  Mirrors the source line by line: non-integer
passthrough; bounds check returning the `None` sentinel; cache hit;
primitive slots cached after resolution; tagged mappings dispatched in
source order (`$d`, `$s`, `$m`, `$b`, `$r`); plain mappings and
sequences allocate their empty result container and cache it BEFORE
hydrating children, then populate it. -/
def hydrateBody (E : Ext) (arr : List JVal) (h : JVal → St → Res HVal)
    (iv : JVal) (s : St) : Res HVal :=
  match pyIndex iv with
  | none => .ok (passthroughVal iv) s
  | some i =>
    if i < 0 ∨ (arr.length : Int) ≤ i then .ok .null s
    else
      match s.cache.lookup i with
      | some v => .ok v s
      | none =>
        match arr.getD i.toNat .null with
        | .null => .ok .null (stIns s i .null)
        | .bool b => .ok (.bool b) (stIns s i (.bool b))
        | .int n => .ok (.int n) (stIns s i (.int n))
        | .str t => .ok (.str t) (stIns s i (.str t))
        | .obj kvs =>
          match kvs.lookup "$d" with
          | some p => hydrateDate E i (.obj kvs) p s
          | none =>
          match kvs.lookup "$s" with
          | some p =>
            match pyIter p with
            | none => .err
            | some items =>
              match items.foldl (setStep h)
                  (.ok [] ⟨s.heap ++ [.set []],
                           (i, .ref s.heap.length) :: s.cache⟩) with
              | .ok elems s2 =>
                .ok (.ref s.heap.length)
                  ⟨s2.heap.set s.heap.length (.set elems), s2.cache⟩
              | .err => .err
              | .out => .out
          | none =>
          match kvs.lookup "$m" with
          | some p =>
            match pyIter p with
            | none => .err
            | some pairs =>
              match pairs.foldl (mapStep h)
                  (.ok [] ⟨s.heap ++ [.dict []],
                           (i, .ref s.heap.length) :: s.cache⟩) with
              | .ok entries s2 =>
                .ok (.ref s.heap.length)
                  ⟨s2.heap.set s.heap.length (.dict entries), s2.cache⟩
              | .err => .err
              | .out => .out
          | none =>
          match kvs.lookup "$b" with
          | some p => hydrateBigint i (.obj kvs) p s
          | none =>
          match kvs.lookup "$r" with
          | some p => hydrateRegex E i (.obj kvs) p s
          | none =>
            match kvs.foldl (objStep h)
                (.ok [] ⟨s.heap ++ [.dict []],
                         (i, .ref s.heap.length) :: s.cache⟩) with
            | .ok entries s2 =>
              .ok (.ref s.heap.length)
                ⟨s2.heap.set s.heap.length (.dict entries), s2.cache⟩
            | .err => .err
            | .out => .out
        | .arr items =>
          match items.foldl (listStep h)
              (.ok [] ⟨s.heap ++ [.list []],
                       (i, .ref s.heap.length) :: s.cache⟩) with
          | .ok elems s2 =>
            .ok (.ref s.heap.length)
              ⟨s2.heap.set s.heap.length (.list elems), s2.cache⟩
          | .err => .err
          | .out => .out

/-- `_hydrate_nuxt3_value(data_array, index_or_value, cache)`, fuel
indexed: each recursion level consumes one unit.  `hydrate_no_fuel_out`
below shows `arr.length + 1` fuel always suffices, so the fuel is
an exact rendering of the source's unbounded recursion. -/
def hydrate (E : Ext) (arr : List JVal) : Nat → JVal → St → Res HVal
  | 0, _, _ => .out
  | fuel + 1, iv, s => hydrateBody E arr (hydrate E arr fuel) iv s

/-- Result of the deserialization entry point: either a value returned
without hydration (`raw`) or a hydrated value with the heap needed to
interpret its references. -/
inductive DRes where
  | raw (v : JVal)
  | hyd (v : HVal) (heap : List HObj)
deriving Repr

/-- The error kinds `parse_nuxt_result` and friends can raise. -/
inductive PErr where
  | nuxtDataNotFound
  | dataParsing
  | attributeError
deriving Repr, DecidableEq

/-- The part of `deserialize_nuxt3_data` after JSON parsing: non-list
and empty-list inputs are returned unchanged; otherwise the root slot
(1 when at least 2 slots, else 0) is hydrated with a fresh empty cache
and heap; any exception escaping hydration is caught by the
`except Exception` safety net, which falls back to the parsed,
unhydrated data. -/
def deserializeParsed (E : Ext) (parsed : JVal) : DRes :=
  match parsed with
  | .arr slots =>
    if slots.isEmpty then .raw parsed
    else
      let root : Int := if 2 ≤ slots.length then 1 else 0
      match hydrate E slots (slots.length + 1) (.int root) ⟨[], []⟩ with
      | .ok v s => .hyd v s.heap
      | _ => .raw parsed
  | _ => .raw parsed

/-- `deserialize_nuxt3_data(raw_data, is_json_string)`.  In text mode a
JSON parse failure raises `DataParsingError` (the only propagating
error); a non-string input raises `DataParsingError` inside the `try`,
which the `except Exception` catches, falling back to returning
`raw_data` unchanged.  (The fallback's re-parse of a string input
yields the already-parsed value again, `jparse` being a function.) -/
def deserialize_nuxt3_data (E : Ext) (jparse : String → Option JVal)
    (raw_data : JVal) (is_json_string : Bool) : Except PErr DRes :=
  if is_json_string then
    match raw_data with
    | .str content =>
      match jparse content with
      | none => .error .dataParsing
      | some parsed => .ok (deserializeParsed E parsed)
    | _ => .ok (.raw raw_data)
  else .ok (deserializeParsed E raw_data)

/-- `parse_nuxt_json(raw, deserialize_nuxt3)`: empty/whitespace-only
content and JSON parse failures raise `DataParsingError`; otherwise
the parsed value is optionally deserialized (`is_json_string=False`,
which never raises). -/
def parse_nuxt_json (E : Ext) (jparse : String → Option JVal)
    (raw : String) (dz : Bool) : Except PErr DRes :=
  if raw.isEmpty ∨ (stripChars raw).isEmpty then .error .dataParsing
  else
    match jparse raw with
    | none => .error .dataParsing
    | some parsed =>
      if dz then
        match deserialize_nuxt3_data E jparse parsed false with
        | .ok d => .ok d
        | .error e => .error e
      else .ok (.raw parsed)

/-- `extraction_result.get(k)`: `None` when the key is absent. -/
def objGet (entries : List (String × JVal)) (k : String) : JVal :=
  (entries.lookup k).getD .null

/-- Python `v == "t"` for a string literal `t`: true exactly on the
equal string (any non-string compares unequal). -/
def jStrEq (v : JVal) (t : String) : Bool :=
  match v with
  | .str s => s == t
  | _ => false

/-- `parse_nuxt_result(extraction_result, deserialize_nuxt3)`.
A falsy or non-dict result, or a falsy `data`/`method` field, raises
`NuxtDataNotFound`; the `element` strategy feeds the string through
`parse_nuxt_json` (a non-string `data` hits `raw.strip()` and raises
`AttributeError`, which the `except (json.JSONDecodeError, TypeError)`
does not catch); the `window` strategy deserializes list data in
place; any other truthy `method` raises `DataParsingError`. -/
def parse_nuxt_result (E : Ext) (jparse : String → Option JVal)
    (extraction_result : JVal) (dz : Bool) :
    Except PErr (DRes × JVal) :=
  match extraction_result with
  | .obj kvs =>
    if !pyTruthy (.obj kvs) then .error .nuxtDataNotFound
    else
      let data := objGet kvs "data"
      let method := objGet kvs "method"
      if !pyTruthy data || !pyTruthy method then .error .nuxtDataNotFound
      else if jStrEq method "element" then
        match data with
        | .str content =>
          match parse_nuxt_json E jparse content dz with
          | .ok d => .ok (d, method)
          | .error e => .error e
        | _ => .error .attributeError
      else if jStrEq method "window" then
        if dz then
          match data with
          | .arr items =>
            match deserialize_nuxt3_data E jparse (.arr items) false with
            | .ok d => .ok (d, method)
            | .error e => .error e
          | _ => .ok (.raw data, method)
        else .ok (.raw data, method)
      else .error .dataParsing
  | _ => .error .nuxtDataNotFound

/-- Is the value a Python `str`? -/
def isStr : JVal → Bool
  | .str _ => true
  | _ => false

/-- Is the value a Python `list`? -/
def isArr : JVal → Bool
  | .arr _ => true
  | _ => false

/-- The condition under which `parse_nuxt_result` raises its "no data"
domain error: the extraction result is not a mapping, or its `data` or
`method` field is falsy (an empty mapping has both fields absent, hence
falsy). -/
def noDataCond : JVal → Bool
  | .obj kvs =>
    !pyTruthy (objGet kvs "data") || !pyTruthy (objGet kvs "method")
  | _ => true

/-- A concrete `Ext` for closed evaluations: every timestamp is in
range and every pattern compiles. -/
def extAll : Ext := ⟨fun _ => true, fun _ => true⟩

/-- A concrete `json.loads` stand-in for closed evaluations on inputs
that never reach JSON parsing. -/
def jparseNone : String → Option JVal := fun _ => none

/-- A two-slot array whose slot 1 references itself: the smallest
reference cycle. -/
def selfRefArr : List JVal :=
  [.obj [("state", .int 1)], .obj [("self", .int 1)]]

/-- The number of in-bounds slot indices missing from the cache. -/
def uncached (cache : List (Int × HVal)) (len : Nat) : Nat :=
  ((List.range len).filter
    (fun j : Nat => (cache.lookup (Int.ofNat j)).isNone)).length

/-- The invariant threaded through the child loops: fewer than `N`
uncached in-bounds slots remain. -/
def UncachedLt (L N : Nat) (s : St) : Prop := uncached s.cache L < N

/-! ## State extension

`StExt s s'` captures what one hydration step may do to the state: cache
entries are only ever added (never removed or overwritten), and heap
objects existing beforehand are left untouched (the hydrator only
allocates fresh containers and populates those). -/

/-- The state `s'` extends `s`: every cache entry of `s` survives
unchanged, and every heap address already allocated in `s` still holds
the same object in `s'`. -/
def StExt (s s' : St) : Prop :=
  (∀ k v, s.cache.lookup k = some v → s'.cache.lookup k = some v) ∧
  s.heap.length ≤ s'.heap.length ∧
  (∀ a, a < s.heap.length → s'.heap[a]? = s.heap[a]?)

theorem stext_refl (s : St) : StExt s s :=
  ⟨fun _ _ h => h, Nat.le_refl _, fun _ _ => rfl⟩

theorem stext_trans {s1 s2 s3 : St} (h1 : StExt s1 s2)
    (h2 : StExt s2 s3) : StExt s1 s3 :=
  ⟨fun k v hk => h2.1 k v (h1.1 k v hk),
   Nat.le_trans h1.2.1 h2.2.1,
   fun a ha => (h2.2.2 a (Nat.lt_of_lt_of_le ha h1.2.1)).trans (h1.2.2 a ha)⟩

/-- A cache entry consed onto a cache not containing its key preserves
all existing lookups. -/
theorem lookup_cons_of_lookup_some {c : List (Int × HVal)} {i k : Int}
    {v w : HVal} (hnone : c.lookup i = none)
    (hk : c.lookup k = some w) : ((i, v) :: c).lookup k = some w := by
  have hne : (k == i) = false := by
    rcases h : k == i with _ | _
    · rfl
    · rw [beq_iff_eq] at h
      subst h
      rw [hnone] at hk
      cases hk
  simp [List.lookup, hne, hk]

theorem stext_stIns {s : St} {i : Int} {v : HVal}
    (h : s.cache.lookup i = none) : StExt s (stIns s i v) :=
  ⟨fun _ _ hk => lookup_cons_of_lookup_some h hk, Nat.le_refl _,
   fun _ _ => rfl⟩

/-- Allocating a fresh container and caching its reference extends the
state. -/
theorem stext_push {s : St} {o : HObj} {i : Int} {rv : HVal}
    (h : s.cache.lookup i = none) :
    StExt s ⟨s.heap ++ [o], (i, rv) :: s.cache⟩ := by
  refine ⟨fun _ _ hk => lookup_cons_of_lookup_some h hk, by simp, ?_⟩
  intro a ha
  exact List.getElem?_append_left ha

/-- Populating a container allocated during the run (at an address at
or past `s.heap.length`) preserves extension from `s`. -/
theorem stext_setEnd {s s2 : St} (h : StExt s s2) {a : Nat}
    (ha : s.heap.length ≤ a) (o : HObj) :
    StExt s ⟨s2.heap.set a o, s2.cache⟩ := by
  refine ⟨h.1, by simpa using h.2.1, ?_⟩
  intro b hb
  have hne : a ≠ b := by omega
  rw [List.getElem?_set_ne hne]
  exact h.2.2 b hb

/-! ## Generic fold lemmas -/

theorem foldl_err {α β : Type} (step : Res α → β → Res α)
    (hstop : ∀ b, step .err b = .err) :
    ∀ l : List β, l.foldl step .err = .err := by
  intro l
  induction l with
  | nil => rfl
  | cons x xs ih => rw [List.foldl_cons, hstop]; exact ih

theorem foldl_out {α β : Type} (step : Res α → β → Res α)
    (hstop : ∀ b, step .out b = .out) :
    ∀ l : List β, l.foldl step .out = .out := by
  intro l
  induction l with
  | nil => rfl
  | cons x xs ih => rw [List.foldl_cons, hstop]; exact ih

/-- If every successful step extends the state, a successful fold
extends the state. -/
theorem foldl_ext {α β : Type} (step : Res α → β → Res α)
    (hstopE : ∀ b, step .err b = .err)
    (hstopO : ∀ b, step .out b = .out)
    (hstep : ∀ a s a' s' b, step (.ok a s) b = .ok a' s' → StExt s s') :
    ∀ (l : List β) (a : α) (s0 : St) (a' : α) (s' : St),
      l.foldl step (.ok a s0) = .ok a' s' → StExt s0 s' := by
  intro l
  induction l with
  | nil =>
    intro a s0 a' s' h
    cases h
    exact stext_refl _
  | cons x xs ih =>
    intro a s0 a' s' h
    rw [List.foldl_cons] at h
    cases hx : step (.ok a s0) x with
    | ok a1 s1 =>
      rw [hx] at h
      exact stext_trans (hstep _ _ _ _ _ hx) (ih _ _ _ _ h)
    | err => rw [hx, foldl_err step hstopE] at h; cases h
    | out => rw [hx, foldl_out step hstopO] at h; cases h

/-- If every step from a state satisfying `P` either succeeds into a
state satisfying `P` or raises, a fold from a `P`-state never runs out
of fuel. -/
theorem foldl_no_out {α β : Type} (step : Res α → β → Res α)
    (P : St → Prop)
    (hstopE : ∀ b, step .err b = .err)
    (hstep : ∀ a s b, P s →
      (∃ a' s', step (.ok a s) b = .ok a' s' ∧ P s') ∨
      step (.ok a s) b = .err) :
    ∀ (l : List β) (a : α) (s0 : St), P s0 →
      l.foldl step (.ok a s0) ≠ .out := by
  intro l
  induction l with
  | nil =>
    intro a s0 _ h
    cases h
  | cons x xs ih =>
    intro a s0 hP h
    rw [List.foldl_cons] at h
    rcases hstep a s0 x hP with ⟨a1, s1, hx, hP1⟩ | hx
    · rw [hx] at h
      exact ih a1 s1 hP1 h
    · rw [hx, foldl_err step hstopE] at h
      cases h

/-! ## Counting uncached slots

The fuel argument of `hydrate` is a bound on recursion depth.  The
measure that shrinks at every descent into an uncached compound slot is
the number of in-bounds indices not yet in the cache. -/

theorem length_filter_imp {α : Type} {l : List α} {p q : α → Bool}
    (h : ∀ a ∈ l, p a = true → q a = true) :
    (l.filter p).length ≤ (l.filter q).length := by
  induction l with
  | nil => exact Nat.le_refl _
  | cons x xs ih =>
    have ih' := ih (fun a ha => h a (List.mem_cons_of_mem _ ha))
    rcases hp : p x with _ | _
    · rcases hq : q x with _ | _
      · simpa [List.filter, hp, hq] using ih'
      · simp only [List.filter, hp, hq]
        exact Nat.le_succ_of_le ih'
    · have hqx : q x = true := h x (List.mem_cons_self _ _) hp
      simpa [List.filter, hp, hqx] using ih'

/-- A cache extension can only shrink the number of uncached slots. -/
theorem uncached_mono {c c' : List (Int × HVal)} (len : Nat)
    (h : ∀ k v, c.lookup k = some v → c'.lookup k = some v) :
    uncached c' len ≤ uncached c len := by
  unfold uncached
  apply length_filter_imp
  intro a _ ha
  rcases hc : c.lookup (Int.ofNat a) with _ | v
  · rfl
  · rw [h _ _ hc] at ha
    cases ha

/-- Replacing one satisfied filter element by an unsatisfied one drops
the filtered length by exactly one. -/
theorem length_filter_flip {α : Type} {l : List α} {p q : α → Bool}
    {x : α} (hnd : l.Nodup) (hx : x ∈ l) (hp : p x = true)
    (hq : q x = false) (hrest : ∀ a ∈ l, a ≠ x → p a = q a) :
    (l.filter p).length = (l.filter q).length + 1 := by
  induction l with
  | nil => cases hx
  | cons y ys ih =>
    rcases List.mem_cons.mp hx with rfl | hx'
    · have hxnot : x ∉ ys := (List.nodup_cons.mp hnd).1
      have heq : ys.filter p = ys.filter q := by
        apply List.filter_congr
        intro a ha
        exact hrest a (List.mem_cons_of_mem _ ha)
          (fun hax => hxnot (hax ▸ ha))
      simp [List.filter, hp, hq, heq]
    · have hynx : y ≠ x := by
        rintro rfl
        exact (List.nodup_cons.mp hnd).1 hx'
      have hpy : p y = q y := hrest y (List.mem_cons_self _ _) hynx
      have ih' := ih (List.nodup_cons.mp hnd).2 hx'
        (fun a ha hax => hrest a (List.mem_cons_of_mem _ ha) hax)
      rcases hqy : q y with _ | _
      · rw [hqy] at hpy
        simpa [List.filter, hpy, hqy] using ih'
      · rw [hqy] at hpy
        simpa [List.filter, hpy, hqy] using ih'

/-- Caching a previously uncached in-bounds index decreases the number
of uncached slots by exactly one. -/
theorem uncached_ins {c : List (Int × HVal)} {i : Int} {v : HVal}
    {len : Nat} (h0 : 0 ≤ i) (hlt : i < (len : Int))
    (hnone : c.lookup i = none) :
    uncached c len = uncached ((i, v) :: c) len + 1 := by
  have hi : Int.ofNat i.toNat = i := Int.toNat_of_nonneg h0
  unfold uncached
  apply length_filter_flip (x := i.toNat) (List.nodup_range len)
  · exact List.mem_range.mpr (by omega)
  · rw [hi, hnone]; rfl
  · rw [hi]
    simp [List.lookup]
  · intro a _ hax
    have hne : (Int.ofNat a == i) = false := by
      rcases hb : Int.ofNat a == i with _ | _
      · rfl
      · rw [beq_iff_eq] at hb
        subst hb
        simp at hax
    rw [List.lookup_cons, hne]

theorem uncached_le (c : List (Int × HVal)) (len : Nat) :
    uncached c len ≤ len := by
  unfold uncached
  simpa using List.length_filter_le _ (List.range len)

/-! ## Per-step lemmas for the four child-hydration loops -/

section Steps

variable {h : JVal → St → Res HVal}

theorem listStep_ext
    (hExt : ∀ v s w s', h v s = .ok w s' → StExt s s') :
    ∀ (acc : List HVal) (s : St) (a' : List HVal) (s' : St) b,
      listStep h (.ok acc s) b = .ok a' s' → StExt s s' := by
  intro acc s a' s' b hb
  simp only [listStep] at hb
  cases hx : h b s with
  | ok v s1 =>
    rw [hx] at hb
    cases hb
    exact hExt _ _ _ _ hx
  | err => rw [hx] at hb; cases hb
  | out => rw [hx] at hb; cases hb

theorem setStep_ext
    (hExt : ∀ v s w s', h v s = .ok w s' → StExt s s') :
    ∀ (acc : List HVal) (s : St) (a' : List HVal) (s' : St) b,
      setStep h (.ok acc s) b = .ok a' s' → StExt s s' := by
  intro acc s a' s' b hb
  simp only [setStep] at hb
  cases hx : h b s with
  | ok v s1 =>
    rw [hx] at hb
    dsimp only at hb
    cases hy : setAdd s1.heap acc v with
    | some acc1 =>
      rw [hy] at hb
      cases hb
      exact hExt _ _ _ _ hx
    | none => rw [hy] at hb; cases hb
  | err => rw [hx] at hb; cases hb
  | out => rw [hx] at hb; cases hb

theorem mapStep_ext
    (hExt : ∀ v s w s', h v s = .ok w s' → StExt s s') :
    ∀ (acc : List (HVal × HVal)) (s : St) (a' : List (HVal × HVal))
      (s' : St) b,
      mapStep h (.ok acc s) b = .ok a' s' → StExt s s' := by
  intro acc s a' s' b hb
  simp only [mapStep] at hb
  cases hu : unpack2 b with
  | none => rw [hu] at hb; cases hb
  | some kv =>
    obtain ⟨kj, vj⟩ := kv
    rw [hu] at hb
    dsimp only at hb
    cases hx : h kj s with
    | ok hk s1 =>
      rw [hx] at hb
      dsimp only at hb
      cases hy : h vj s1 with
      | ok hv s2 =>
        rw [hy] at hb
        dsimp only at hb
        cases hz : dictSetItem s2.heap acc hk hv with
        | some acc1 =>
          rw [hz] at hb
          cases hb
          exact stext_trans (hExt _ _ _ _ hx) (hExt _ _ _ _ hy)
        | none => rw [hz] at hb; cases hb
      | err => rw [hy] at hb; cases hb
      | out => rw [hy] at hb; cases hb
    | err => rw [hx] at hb; cases hb
    | out => rw [hx] at hb; cases hb

theorem objStep_ext
    (hExt : ∀ v s w s', h v s = .ok w s' → StExt s s') :
    ∀ (acc : List (HVal × HVal)) (s : St) (a' : List (HVal × HVal))
      (s' : St) (b : String × JVal),
      objStep h (.ok acc s) b = .ok a' s' → StExt s s' := by
  intro acc s a' s' b hb
  obtain ⟨bk, bv⟩ := b
  simp only [objStep] at hb
  cases hx : h bv s with
  | ok v s1 =>
    rw [hx] at hb
    dsimp only at hb
    cases hy : dictSetItem s1.heap acc (.str bk) v with
    | some acc1 =>
      rw [hy] at hb
      cases hb
      exact hExt _ _ _ _ hx
    | none => rw [hy] at hb; cases hb
  | err => rw [hx] at hb; cases hb
  | out => rw [hx] at hb; cases hb

end Steps

/-! ## Shape lemmas for the non-recursive tagged branches -/

theorem hydrateDate_ok {E : Ext} {i : Int} {orig payload : JVal} {s : St}
    {w : HVal} {s' : St}
    (hb : hydrateDate E i orig payload s = .ok w s') :
    s' = stIns s i w := by
  unfold hydrateDate at hb
  split at hb <;> try split at hb
  all_goals (cases hb; rfl)

theorem hydrateDate_ne_out {E : Ext} {i : Int} {orig payload : JVal}
    {s : St} : hydrateDate E i orig payload s ≠ .out := by
  unfold hydrateDate
  split <;> (try split) <;> intro hb <;> cases hb

theorem hydrateBigint_ok {i : Int} {orig payload : JVal} {s : St}
    {w : HVal} {s' : St}
    (hb : hydrateBigint i orig payload s = .ok w s') :
    s' = stIns s i w := by
  unfold hydrateBigint at hb
  split at hb <;> try split at hb
  all_goals (cases hb; try rfl)

theorem hydrateBigint_ne_out {i : Int} {orig payload : JVal} {s : St} :
    hydrateBigint i orig payload s ≠ .out := by
  unfold hydrateBigint
  split <;> (try split) <;> intro hb <;> cases hb

theorem hydrateRegex_ne_out {E : Ext} {i : Int} {orig payload : JVal}
    {s : St} : hydrateRegex E i orig payload s ≠ .out := by
  unfold hydrateRegex
  split <;> (try split) <;> (try split) <;> intro hb <;> cases hb

/-- A successful regexp decode either conses the cache on an unchanged
heap, or allocates the compiled pattern; in both cases the state
extends and the new cache head is the returned value. -/
theorem hydrateRegex_ok {E : Ext} {i : Int} {orig payload : JVal}
    {s : St} {w : HVal} {s' : St}
    (hnone : List.lookup i s.cache = none)
    (hb : hydrateRegex E i orig payload s = .ok w s') :
    StExt s s' ∧ s'.cache = (i, w) :: s.cache := by
  unfold hydrateRegex at hb
  split at hb <;> try split at hb
  case _ => -- payload a string of /p/f form
    split at hb
    · cases hb
      exact ⟨stext_push hnone, rfl⟩
    · cases hb
      exact ⟨stext_stIns hnone, rfl⟩
  all_goals (cases hb; exact ⟨stext_stIns hnone, rfl⟩)

/-! ## The body lemmas: state extension and cache population -/

/-- A successful hydration of an in-bounds slot reference extends the
state and leaves the returned value in the cache under its index. -/
theorem hydrateBody_ok_some {E : Ext} {arr : List JVal}
    {h : JVal → St → Res HVal}
    (hExt : ∀ v s w s', h v s = .ok w s' → StExt s s') :
    ∀ (iv : JVal) (i : Int) (s : St) (w : HVal) (s' : St),
      pyIndex iv = some i → ¬(i < 0 ∨ (arr.length : Int) ≤ i) →
      hydrateBody E arr h iv s = .ok w s' →
      StExt s s' ∧ List.lookup i s'.cache = some w := by
  intro iv i s w s' hpi hbound hb
  unfold hydrateBody at hb
  rw [hpi] at hb
  dsimp only at hb
  rw [if_neg hbound] at hb
  cases hcache : List.lookup i s.cache with
  | some v =>
    rw [hcache] at hb
    dsimp only at hb
    cases hb
    exact ⟨stext_refl _, hcache⟩
  | none =>
    rw [hcache] at hb
    dsimp only at hb
    cases hval : arr.getD i.toNat .null with
    | null =>
      rw [hval] at hb
      dsimp only at hb
      cases hb
      exact ⟨stext_stIns hcache, List.lookup_cons_self⟩
    | bool b =>
      rw [hval] at hb
      dsimp only at hb
      cases hb
      exact ⟨stext_stIns hcache, List.lookup_cons_self⟩
    | int n =>
      rw [hval] at hb
      dsimp only at hb
      cases hb
      exact ⟨stext_stIns hcache, List.lookup_cons_self⟩
    | str t =>
      rw [hval] at hb
      dsimp only at hb
      cases hb
      exact ⟨stext_stIns hcache, List.lookup_cons_self⟩
    | arr items =>
      rw [hval] at hb
      dsimp only at hb
      cases hfold : items.foldl (listStep h)
          (.ok [] ⟨s.heap ++ [.list []],
                   (i, .ref s.heap.length) :: s.cache⟩) with
      | ok elems s2 =>
        rw [hfold] at hb
        dsimp only at hb
        cases hb
        have hx : StExt (⟨s.heap ++ [.list []],
            (i, .ref s.heap.length) :: s.cache⟩ : St) s2 :=
          foldl_ext (listStep h) (fun _ => rfl) (fun _ => rfl)
            (fun a s0 a' s0' b hs => listStep_ext hExt a s0 a' s0' b hs)
            _ _ _ _ _ hfold
        refine ⟨stext_setEnd (stext_trans (stext_push hcache) hx)
          (Nat.le_refl _) _, ?_⟩
        exact hx.1 i (.ref s.heap.length) List.lookup_cons_self
      | err => rw [hfold] at hb; cases hb
      | out => rw [hfold] at hb; cases hb
    | obj kvs =>
      rw [hval] at hb
      dsimp only at hb
      cases hd : List.lookup "$d" kvs with
      | some p =>
        rw [hd] at hb
        dsimp only at hb
        have hsh := hydrateDate_ok hb
        subst hsh
        exact ⟨stext_stIns hcache, List.lookup_cons_self⟩
      | none =>
        rw [hd] at hb
        dsimp only at hb
        cases hsk : List.lookup "$s" kvs with
        | some p =>
          rw [hsk] at hb
          dsimp only at hb
          cases hit : pyIter p with
          | none => rw [hit] at hb; cases hb
          | some items =>
            rw [hit] at hb
            dsimp only at hb
            cases hfold : items.foldl (setStep h)
                (.ok [] ⟨s.heap ++ [.set []],
                         (i, .ref s.heap.length) :: s.cache⟩) with
            | ok elems s2 =>
              rw [hfold] at hb
              dsimp only at hb
              cases hb
              have hx : StExt (⟨s.heap ++ [.set []],
                  (i, .ref s.heap.length) :: s.cache⟩ : St) s2 :=
                foldl_ext (setStep h) (fun _ => rfl) (fun _ => rfl)
                  (fun a s0 a' s0' b hs =>
                    setStep_ext hExt a s0 a' s0' b hs)
                  _ _ _ _ _ hfold
              refine ⟨stext_setEnd (stext_trans (stext_push hcache) hx)
                (Nat.le_refl _) _, ?_⟩
              exact hx.1 i (.ref s.heap.length) List.lookup_cons_self
            | err => rw [hfold] at hb; cases hb
            | out => rw [hfold] at hb; cases hb
        | none =>
          rw [hsk] at hb
          dsimp only at hb
          cases hm : List.lookup "$m" kvs with
          | some p =>
            rw [hm] at hb
            dsimp only at hb
            cases hit : pyIter p with
            | none => rw [hit] at hb; cases hb
            | some pairs =>
              rw [hit] at hb
              dsimp only at hb
              cases hfold : pairs.foldl (mapStep h)
                  (.ok [] ⟨s.heap ++ [.dict []],
                           (i, .ref s.heap.length) :: s.cache⟩) with
              | ok entries s2 =>
                rw [hfold] at hb
                dsimp only at hb
                cases hb
                have hx : StExt (⟨s.heap ++ [.dict []],
                    (i, .ref s.heap.length) :: s.cache⟩ : St) s2 :=
                  foldl_ext (mapStep h) (fun _ => rfl) (fun _ => rfl)
                    (fun a s0 a' s0' b hs =>
                      mapStep_ext hExt a s0 a' s0' b hs)
                    _ _ _ _ _ hfold
                refine ⟨stext_setEnd (stext_trans (stext_push hcache) hx)
                  (Nat.le_refl _) _, ?_⟩
                exact hx.1 i (.ref s.heap.length) List.lookup_cons_self
              | err => rw [hfold] at hb; cases hb
              | out => rw [hfold] at hb; cases hb
          | none =>
            rw [hm] at hb
            dsimp only at hb
            cases hbg : List.lookup "$b" kvs with
            | some p =>
              rw [hbg] at hb
              dsimp only at hb
              have hsh := hydrateBigint_ok hb
              subst hsh
              exact ⟨stext_stIns hcache, List.lookup_cons_self⟩
            | none =>
              rw [hbg] at hb
              dsimp only at hb
              cases hr : List.lookup "$r" kvs with
              | some p =>
                rw [hr] at hb
                dsimp only at hb
                obtain ⟨hex, hcc⟩ := hydrateRegex_ok hcache hb
                refine ⟨hex, ?_⟩
                rw [hcc]
                exact List.lookup_cons_self
              | none =>
                rw [hr] at hb
                dsimp only at hb
                cases hfold : kvs.foldl (objStep h)
                    (.ok [] ⟨s.heap ++ [.dict []],
                             (i, .ref s.heap.length) :: s.cache⟩) with
                | ok entries s2 =>
                  rw [hfold] at hb
                  dsimp only at hb
                  cases hb
                  have hx : StExt (⟨s.heap ++ [.dict []],
                      (i, .ref s.heap.length) :: s.cache⟩ : St) s2 :=
                    foldl_ext (objStep h) (fun _ => rfl) (fun _ => rfl)
                      (fun a s0 a' s0' b hs =>
                        objStep_ext hExt a s0 a' s0' b hs)
                      _ _ _ _ _ hfold
                  refine ⟨stext_setEnd (stext_trans (stext_push hcache) hx)
                    (Nat.le_refl _) _, ?_⟩
                  exact hx.1 i (.ref s.heap.length) List.lookup_cons_self
                | err => rw [hfold] at hb; cases hb
                | out => rw [hfold] at hb; cases hb

/-- Every successful `hydrateBody` call extends the state. -/
theorem hydrateBody_ext {E : Ext} {arr : List JVal}
    {h : JVal → St → Res HVal}
    (hExt : ∀ v s w s', h v s = .ok w s' → StExt s s') :
    ∀ iv s w s', hydrateBody E arr h iv s = .ok w s' → StExt s s' := by
  intro iv s w s' hb
  cases hpi : pyIndex iv with
  | none =>
    unfold hydrateBody at hb
    rw [hpi] at hb
    dsimp only at hb
    cases hb
    exact stext_refl _
  | some i =>
    by_cases hbound : i < 0 ∨ (arr.length : Int) ≤ i
    · unfold hydrateBody at hb
      rw [hpi] at hb
      dsimp only at hb
      rw [if_pos hbound] at hb
      cases hb
      exact stext_refl _
    · exact (hydrateBody_ok_some hExt iv i s w s' hpi hbound hb).1

/-- Every successful `hydrate` call extends the state: the cache only
grows, and heap objects existing before the call are untouched. -/
theorem hydrate_ext {E : Ext} {arr : List JVal} :
    ∀ (fuel : Nat) (iv : JVal) (s : St) (w : HVal) (s' : St),
      hydrate E arr fuel iv s = .ok w s' → StExt s s' := by
  intro fuel
  induction fuel with
  | zero => intro iv s w s' hb; cases hb
  | succ f ih =>
    intro iv s w s' hb
    exact hydrateBody_ext (fun v s0 w0 s0' hs => ih v s0 w0 s0' hs) iv s w s' hb

/-- After a successful hydration of an in-bounds index, the returned
value sits in the cache under that index. -/
theorem hydrate_cache {E : Ext} {arr : List JVal} :
    ∀ (fuel : Nat) (i : Int) (s : St) (w : HVal) (s' : St),
      ¬(i < 0 ∨ (arr.length : Int) ≤ i) →
      hydrate E arr fuel (.int i) s = .ok w s' →
      List.lookup i s'.cache = some w := by
  intro fuel i s w s' hbound hb
  cases fuel with
  | zero => cases hb
  | succ f =>
    exact (hydrateBody_ok_some
      (fun v s0 w0 s0' hs => hydrate_ext f v s0 w0 s0' hs)
      (.int i) i s w s' rfl hbound hb).2

/-! ## Fuel sufficiency -/

section NoOut

variable {h : JVal → St → Res HVal} {L N : Nat}

theorem listStep_no_out
    (hExt : ∀ v s w s', h v s = .ok w s' → StExt s s')
    (hNO : ∀ v s, UncachedLt L N s → h v s ≠ .out) :
    ∀ (acc : List HVal) (s : St) (b : JVal), UncachedLt L N s →
      (∃ a' s', listStep h (.ok acc s) b = .ok a' s' ∧ UncachedLt L N s') ∨
      listStep h (.ok acc s) b = .err := by
  intro acc s b hP
  cases hx : h b s with
  | ok v s1 =>
    left
    refine ⟨acc ++ [v], s1, by simp [listStep, hx], ?_⟩
    exact Nat.lt_of_le_of_lt (uncached_mono L (hExt _ _ _ _ hx).1) hP
  | err => right; simp [listStep, hx]
  | out => exact absurd hx (hNO b s hP)

theorem setStep_no_out
    (hExt : ∀ v s w s', h v s = .ok w s' → StExt s s')
    (hNO : ∀ v s, UncachedLt L N s → h v s ≠ .out) :
    ∀ (acc : List HVal) (s : St) (b : JVal), UncachedLt L N s →
      (∃ a' s', setStep h (.ok acc s) b = .ok a' s' ∧ UncachedLt L N s') ∨
      setStep h (.ok acc s) b = .err := by
  intro acc s b hP
  cases hx : h b s with
  | ok v s1 =>
    cases hy : setAdd s1.heap acc v with
    | some acc1 =>
      left
      refine ⟨acc1, s1, by simp [setStep, hx, hy], ?_⟩
      exact Nat.lt_of_le_of_lt (uncached_mono L (hExt _ _ _ _ hx).1) hP
    | none => right; simp [setStep, hx, hy]
  | err => right; simp [setStep, hx]
  | out => exact absurd hx (hNO b s hP)

theorem mapStep_no_out
    (hExt : ∀ v s w s', h v s = .ok w s' → StExt s s')
    (hNO : ∀ v s, UncachedLt L N s → h v s ≠ .out) :
    ∀ (acc : List (HVal × HVal)) (s : St) (b : JVal), UncachedLt L N s →
      (∃ a' s', mapStep h (.ok acc s) b = .ok a' s' ∧ UncachedLt L N s') ∨
      mapStep h (.ok acc s) b = .err := by
  intro acc s b hP
  cases hu : unpack2 b with
  | none => right; simp [mapStep, hu]
  | some kv =>
    obtain ⟨kj, vj⟩ := kv
    cases hx : h kj s with
    | ok hk s1 =>
      have hP1 : UncachedLt L N s1 :=
        Nat.lt_of_le_of_lt (uncached_mono L (hExt _ _ _ _ hx).1) hP
      cases hy : h vj s1 with
      | ok hv s2 =>
        have hP2 : UncachedLt L N s2 :=
          Nat.lt_of_le_of_lt (uncached_mono L (hExt _ _ _ _ hy).1) hP1
        cases hz : dictSetItem s2.heap acc hk hv with
        | some acc1 =>
          left
          exact ⟨acc1, s2, by simp [mapStep, hu, hx, hy, hz], hP2⟩
        | none => right; simp [mapStep, hu, hx, hy, hz]
      | err => right; simp [mapStep, hu, hx, hy]
      | out => exact absurd hy (hNO vj s1 hP1)
    | err => right; simp [mapStep, hu, hx]
    | out => exact absurd hx (hNO kj s hP)

theorem objStep_no_out
    (hExt : ∀ v s w s', h v s = .ok w s' → StExt s s')
    (hNO : ∀ v s, UncachedLt L N s → h v s ≠ .out) :
    ∀ (acc : List (HVal × HVal)) (s : St) (b : String × JVal),
      UncachedLt L N s →
      (∃ a' s', objStep h (.ok acc s) b = .ok a' s' ∧ UncachedLt L N s') ∨
      objStep h (.ok acc s) b = .err := by
  intro acc s b hP
  obtain ⟨bk, bv⟩ := b
  cases hx : h bv s with
  | ok v s1 =>
    cases hy : dictSetItem s1.heap acc (.str bk) v with
    | some acc1 =>
      left
      refine ⟨acc1, s1, by simp [objStep, hx, hy], ?_⟩
      exact Nat.lt_of_le_of_lt (uncached_mono L (hExt _ _ _ _ hx).1) hP
    | none => right; simp [objStep, hx, hy]
  | err => right; simp [objStep, hx]
  | out => exact absurd hx (hNO bv s hP)

end NoOut

/-- With at most `N` uncached in-bounds slots and a child hydrator that
never exhausts fuel from states with fewer than `N` uncached slots, the
body never exhausts fuel: descending into a compound slot first caches
its index, leaving fewer than `N` uncached slots for the children. -/
theorem hydrateBody_no_out {E : Ext} {arr : List JVal}
    {h : JVal → St → Res HVal} {N : Nat}
    (hExt : ∀ v s w s', h v s = .ok w s' → StExt s s')
    (hNO : ∀ v s, UncachedLt arr.length N s → h v s ≠ .out) :
    ∀ iv s, uncached s.cache arr.length ≤ N →
      hydrateBody E arr h iv s ≠ .out := by
  intro iv s hP hb
  unfold hydrateBody at hb
  cases hpi : pyIndex iv with
  | none => rw [hpi] at hb; dsimp only at hb; cases hb
  | some i =>
    rw [hpi] at hb
    dsimp only at hb
    by_cases hbound : i < 0 ∨ (arr.length : Int) ≤ i
    · rw [if_pos hbound] at hb; cases hb
    · rw [if_neg hbound] at hb
      cases hcache : List.lookup i s.cache with
      | some v => rw [hcache] at hb; dsimp only at hb; cases hb
      | none =>
        rw [hcache] at hb
        dsimp only at hb
        have h0 : 0 ≤ i := by omega
        have hlt : i < (arr.length : Int) := by omega
        have hdec : ∀ rv : HVal, UncachedLt arr.length N
            (⟨s.heap ++ [HObj.dict []], (i, rv) :: s.cache⟩ : St) ∧
            UncachedLt arr.length N
            (⟨s.heap ++ [HObj.set []], (i, rv) :: s.cache⟩ : St) ∧
            UncachedLt arr.length N
            (⟨s.heap ++ [HObj.list []], (i, rv) :: s.cache⟩ : St) := by
          intro rv
          have := uncached_ins (v := rv) h0 hlt hcache
          constructor
          · show uncached ((i, rv) :: s.cache) arr.length < N
            omega
          constructor
          · show uncached ((i, rv) :: s.cache) arr.length < N
            omega
          · show uncached ((i, rv) :: s.cache) arr.length < N
            omega
        cases hval : arr.getD i.toNat .null with
        | null => rw [hval] at hb; dsimp only at hb; cases hb
        | bool b => rw [hval] at hb; dsimp only at hb; cases hb
        | int n => rw [hval] at hb; dsimp only at hb; cases hb
        | str t => rw [hval] at hb; dsimp only at hb; cases hb
        | arr items =>
          rw [hval] at hb
          dsimp only at hb
          cases hfold : items.foldl (listStep h)
              (.ok [] ⟨s.heap ++ [.list []],
                       (i, .ref s.heap.length) :: s.cache⟩) with
          | ok elems s2 => rw [hfold] at hb; dsimp only at hb; cases hb
          | err => rw [hfold] at hb; cases hb
          | out =>
            exact foldl_no_out (listStep h) (UncachedLt arr.length N)
              (fun _ => rfl) (listStep_no_out hExt hNO) items []
              _ (hdec _).2.2 hfold
        | obj kvs =>
          rw [hval] at hb
          dsimp only at hb
          cases hd : List.lookup "$d" kvs with
          | some p =>
            rw [hd] at hb
            dsimp only at hb
            exact hydrateDate_ne_out hb
          | none =>
            rw [hd] at hb
            dsimp only at hb
            cases hsk : List.lookup "$s" kvs with
            | some p =>
              rw [hsk] at hb
              dsimp only at hb
              cases hit : pyIter p with
              | none => rw [hit] at hb; cases hb
              | some items =>
                rw [hit] at hb
                dsimp only at hb
                cases hfold : items.foldl (setStep h)
                    (.ok [] ⟨s.heap ++ [.set []],
                             (i, .ref s.heap.length) :: s.cache⟩) with
                | ok elems s2 => rw [hfold] at hb; dsimp only at hb; cases hb
                | err => rw [hfold] at hb; cases hb
                | out =>
                  exact foldl_no_out (setStep h) (UncachedLt arr.length N)
                    (fun _ => rfl) (setStep_no_out hExt hNO) items []
                    _ (hdec _).2.1 hfold
            | none =>
              rw [hsk] at hb
              dsimp only at hb
              cases hm : List.lookup "$m" kvs with
              | some p =>
                rw [hm] at hb
                dsimp only at hb
                cases hit : pyIter p with
                | none => rw [hit] at hb; cases hb
                | some pairs =>
                  rw [hit] at hb
                  dsimp only at hb
                  cases hfold : pairs.foldl (mapStep h)
                      (.ok [] ⟨s.heap ++ [.dict []],
                               (i, .ref s.heap.length) :: s.cache⟩) with
                  | ok entries s2 =>
                    rw [hfold] at hb; dsimp only at hb; cases hb
                  | err => rw [hfold] at hb; cases hb
                  | out =>
                    exact foldl_no_out (mapStep h)
                      (UncachedLt arr.length N) (fun _ => rfl)
                      (mapStep_no_out hExt hNO) pairs []
                      _ (hdec _).1 hfold
              | none =>
                rw [hm] at hb
                dsimp only at hb
                cases hbg : List.lookup "$b" kvs with
                | some p =>
                  rw [hbg] at hb
                  dsimp only at hb
                  exact hydrateBigint_ne_out hb
                | none =>
                  rw [hbg] at hb
                  dsimp only at hb
                  cases hr : List.lookup "$r" kvs with
                  | some p =>
                    rw [hr] at hb
                    dsimp only at hb
                    exact hydrateRegex_ne_out hb
                  | none =>
                    rw [hr] at hb
                    dsimp only at hb
                    cases hfold : kvs.foldl (objStep h)
                        (.ok [] ⟨s.heap ++ [.dict []],
                                 (i, .ref s.heap.length) :: s.cache⟩) with
                    | ok entries s2 =>
                      rw [hfold] at hb; dsimp only at hb; cases hb
                    | err => rw [hfold] at hb; cases hb
                    | out =>
                      exact foldl_no_out (objStep h)
                        (UncachedLt arr.length N)
                        (fun b => by obtain ⟨bk, bv⟩ := b; rfl)
                        (objStep_no_out hExt hNO) kvs []
                        _ (hdec _).1 hfold

/-- Fuel sufficiency: `hydrate` never runs out of fuel when given more
fuel than there are uncached in-bounds slots.  This is the formal
content of cycle termination: recursion depth is bounded because every
compound slot is cached before its children are visited. -/
theorem hydrate_no_fuel_out {E : Ext} {arr : List JVal} :
    ∀ (fuel : Nat) (iv : JVal) (s : St),
      uncached s.cache arr.length < fuel →
      hydrate E arr fuel iv s ≠ .out := by
  intro fuel
  induction fuel with
  | zero => intro iv s hP; omega
  | succ f ih =>
    intro iv s hP
    exact hydrateBody_no_out
      (fun v s0 w0 s0' hs => hydrate_ext f v s0 w0 s0' hs)
      (fun v s0 hP0 => ih v s0 hP0) iv s (by omega)

/-! ## Claim theorems -/

/-- C1: hydration terminates on every array, cyclic ones included —
any fuel exceeding the number of uncached in-bounds slots is enough,
because every compound slot inserts its (empty) result container into
the cache before its children are hydrated; and on the smallest cycle
(slot 1 referencing itself) the resolved dict contains a reference to
its own heap address (`.ref 0` inside the object stored at address 0),
i.e. an identity back-reference. -/
theorem hydrate_cycles_terminate :
    (∀ (E : Ext) (arr : List JVal) (fuel : Nat) (iv : JVal) (s : St),
        uncached s.cache arr.length < fuel →
        hydrate E arr fuel iv s ≠ .out) ∧
    hydrate extAll selfRefArr 3 (.int 1) ⟨[], []⟩ =
      .ok (.ref 0) ⟨[.dict [(.str "self", .ref 0)]], [(1, .ref 0)]⟩ :=
  ⟨fun _ _ fuel iv s hP => hydrate_no_fuel_out fuel iv s hP, rfl⟩

/-- Witness for C1 at a concrete cyclic input. -/
theorem hydrate_cycles_terminate_witness :
    uncached (St.mk [] []).cache selfRefArr.length < 3 ∧
    hydrate extAll selfRefArr 3 (.int 1) ⟨[], []⟩ ≠ .out :=
  ⟨by decide,
   hydrate_cycles_terminate.1 extAll selfRefArr 3 (.int 1) ⟨[], []⟩
     (by decide)⟩

/-- C2 (failing-input evidence): on
`[{"state":1}, {"name":"test","value":42}]` the integer `42` is, per
the integer-as-reference convention, treated as a slot reference; it
is out of bounds for the two-slot array, so the hydrated `"value"`
field is the null sentinel — not the literal `42` that the claim (and
the repository's own tests) expect. -/
theorem deserialize_treats_42_as_reference :
    deserialize_nuxt3_data extAll jparseNone
      (.arr [.obj [("state", .int 1)],
             .obj [("name", .str "test"), ("value", .int 42)]]) false =
    .ok (.hyd (.ref 0)
      [.dict [(.str "name", .str "test"), (.str "value", .null)]]) := rfl

/-- C5 (counterexample): with `is_json_string=True` and the non-string
input `None`, `deserialize_nuxt3_data` does NOT raise: the
`DataParsingError` raised inside the `try` is caught by the broad
`except Exception` fallback, which returns the input unchanged. -/
theorem text_mode_non_string_no_error :
    deserialize_nuxt3_data extAll jparseNone .null true =
      .ok (.raw .null) ∧
    (Except.ok (DRes.raw .null) : Except PErr DRes) ≠
      .error .dataParsing :=
  ⟨rfl, fun hc => nomatch hc⟩

/-- C5 (amended): for every non-string input in text-form mode the
internally raised `DataParsingError` is swallowed by the fallback
wrapper and the input is returned unchanged; no error reaches the
caller. -/
theorem text_mode_non_string_fallback :
    ∀ (E : Ext) (jp : String → Option JVal) (v : JVal),
      isStr v = false →
      deserialize_nuxt3_data E jp v true = .ok (.raw v) := by
  intro E jp v hv
  cases v with
  | str s => cases hv
  | null => rfl
  | bool b => rfl
  | int n => rfl
  | arr l => rfl
  | obj l => rfl

/-- Witness for the amended C5 at a concrete non-string input. -/
theorem text_mode_non_string_fallback_witness :
    isStr (.arr []) = false ∧
    deserialize_nuxt3_data extAll jparseNone (.arr []) true =
      .ok (.raw (.arr [])) :=
  ⟨rfl, text_mode_non_string_fallback extAll jparseNone (.arr []) rfl⟩

/-- C7: every integer slot reference outside `[0, len(array))` —
negative, equal to, or beyond the length — hydrates to the null
sentinel without touching the state and without raising. -/
theorem hydrate_out_of_bounds_null :
    ∀ (E : Ext) (arr : List JVal) (fuel : Nat) (n : Int) (s : St),
      (n < 0 ∨ (arr.length : Int) ≤ n) →
      hydrate E arr (fuel + 1) (.int n) s = .ok .null s := by
  intro E arr fuel n s hb
  show hydrateBody E arr (hydrate E arr fuel) (.int n) s = .ok .null s
  unfold hydrateBody
  dsimp only [pyIndex]
  rw [if_pos hb]

/-- Witness for C7 at index 999 of a two-slot array. -/
theorem hydrate_out_of_bounds_null_witness :
    ((999 : Int) < 0 ∨ ((selfRefArr.length : Int) ≤ 999)) ∧
    hydrate extAll selfRefArr 3 (.int 999) ⟨[], []⟩ =
      .ok .null ⟨[], []⟩ :=
  ⟨by decide,
   hydrate_out_of_bounds_null extAll selfRefArr 2 999 ⟨[], []⟩ (by decide)⟩

/-- C8: hydrating an in-bounds slot a second time within the same run
returns the cached result: the identical value (for containers, the
same heap address — Python object identity) and an unchanged state. -/
theorem hydrate_idempotent_cached :
    ∀ (E : Ext) (arr : List JVal) (f1 f2 : Nat) (i : Int) (s : St)
      (v : HVal) (s' : St),
      ¬(i < 0 ∨ (arr.length : Int) ≤ i) →
      hydrate E arr f1 (.int i) s = .ok v s' →
      hydrate E arr (f2 + 1) (.int i) s' = .ok v s' := by
  intro E arr f1 f2 i s v s' hbound hok
  have hc := hydrate_cache f1 i s v s' hbound hok
  show hydrateBody E arr (hydrate E arr f2) (.int i) s' = .ok v s'
  unfold hydrateBody
  dsimp only [pyIndex]
  rw [if_neg hbound, hc]

/-- Witness for C8 on the self-referencing array: the second visit of
slot 1 returns the same heap reference with the state unchanged. -/
theorem hydrate_idempotent_cached_witness :
    ¬((1 : Int) < 0 ∨ ((selfRefArr.length : Int) ≤ 1)) ∧
    hydrate extAll selfRefArr 3 (.int 1)
      ⟨[.dict [(.str "self", .ref 0)]], [(1, .ref 0)]⟩ =
      .ok (.ref 0) ⟨[.dict [(.str "self", .ref 0)]], [(1, .ref 0)]⟩ :=
  ⟨by decide,
   hydrate_idempotent_cached extAll selfRefArr 3 2 1 ⟨[], []⟩ (.ref 0)
     ⟨[.dict [(.str "self", .ref 0)]], [(1, .ref 0)]⟩
     (by decide) rfl⟩

/-- C10: hydration never mutates pre-existing objects.  The serialized
array is an immutable value of the embedding (the source allocates
fresh `result` containers and never assigns into `data_array`); the
heap — which holds every object the hydrator ever populates — only
grows, and every address allocated before the call still holds exactly
the same object afterwards: all result containers are freshly
allocated. -/
theorem hydrate_no_mutation :
    ∀ (E : Ext) (arr : List JVal) (fuel : Nat) (iv : JVal) (s : St)
      (w : HVal) (s' : St),
      hydrate E arr fuel iv s = .ok w s' →
      s.heap.length ≤ s'.heap.length ∧
      ∀ a, a < s.heap.length → s'.heap[a]? = s.heap[a]? :=
  fun _ _ fuel iv s w s' hb =>
    ⟨(hydrate_ext fuel iv s w s' hb).2.1,
     (hydrate_ext fuel iv s w s' hb).2.2⟩

/-- Witness for C10: hydrating slot 1 of the cyclic array from a state
with one pre-existing heap object leaves that object unchanged. -/
theorem hydrate_no_mutation_witness :
    hydrate extAll selfRefArr 3 (.int 1) ⟨[.list []], []⟩ =
      .ok (.ref 1) ⟨[.list [], .dict [(.str "self", .ref 1)]],
                    [(1, .ref 1)]⟩ ∧
    (1 ≤ 2 ∧ ∀ a, a < 1 →
      ([HObj.list [], HObj.dict [(.str "self", .ref 1)]][a]? =
        [HObj.list []][a]?)) :=
  ⟨rfl,
   hydrate_no_mutation extAll selfRefArr 3 (.int 1) ⟨[.list []], []⟩
     (.ref 1) ⟨[.list [], .dict [(.str "self", .ref 1)]], [(1, .ref 1)]⟩
     rfl⟩

/-- C3 (counterexample): decoding the regexp-tagged slot
`{"$r": null}` yields the ORIGINAL MAPPING, not `null`: the
`AttributeError` from `None.startswith` is caught by the branch's
`except Exception`, whose handler returns the tagged mapping. -/
theorem regex_null_payload_gives_mapping :
    deserialize_nuxt3_data extAll jparseNone
      (.arr [.obj [("state", .int 1)], .obj [("$r", .null)]]) false =
      .ok (.hyd (.rawObj (.obj [("$r", .null)])) []) ∧
    (Except.ok (DRes.hyd (.rawObj (.obj [("$r", JVal.null)])) [])
        : Except PErr DRes) ≠
      .ok (.hyd .null []) :=
  ⟨rfl, fun hc => nomatch hc⟩

/-- C3 (amended): a regexp-tagged slot with `null` payload decodes to
the original mapping (the `AttributeError` is caught by the broad
handler), a string payload not of the `/pattern/flags` form decodes to
that raw string, and neither case raises. -/
theorem regex_fallback_pair :
    (∀ (E : Ext) (arr : List JVal) (f : Nat) (i : Int) (s : St)
       (kvs : List (String × JVal)),
       ¬(i < 0 ∨ (arr.length : Int) ≤ i) →
       List.lookup i s.cache = none →
       arr.getD i.toNat .null = .obj kvs →
       List.lookup "$d" kvs = none →
       List.lookup "$s" kvs = none →
       List.lookup "$m" kvs = none →
       List.lookup "$b" kvs = none →
       List.lookup "$r" kvs = some .null →
       hydrate E arr (f + 1) (.int i) s =
         .ok (.rawObj (.obj kvs)) (stIns s i (.rawObj (.obj kvs)))) ∧
    (∀ (E : Ext) (arr : List JVal) (f : Nat) (i : Int) (s : St)
       (kvs : List (String × JVal)) (t : String),
       ¬(i < 0 ∨ (arr.length : Int) ≤ i) →
       List.lookup i s.cache = none →
       arr.getD i.toNat .null = .obj kvs →
       List.lookup "$d" kvs = none →
       List.lookup "$s" kvs = none →
       List.lookup "$m" kvs = none →
       List.lookup "$b" kvs = none →
       List.lookup "$r" kvs = some (.str t) →
       parseRegexForm t = none →
       hydrate E arr (f + 1) (.int i) s =
         .ok (.str t) (stIns s i (.str t))) := by
  constructor
  · intro E arr f i s kvs hbound hcache hval hd hsk hm hbg hr
    show hydrateBody E arr (hydrate E arr f) (.int i) s = _
    unfold hydrateBody
    dsimp only [pyIndex]
    rw [if_neg hbound, hcache]
    dsimp only
    rw [hval]
    dsimp only
    rw [hd]
    dsimp only
    rw [hsk]
    dsimp only
    rw [hm]
    dsimp only
    rw [hbg]
    dsimp only
    rw [hr]
    dsimp only
    rfl
  · intro E arr f i s kvs t hbound hcache hval hd hsk hm hbg hr hpf
    show hydrateBody E arr (hydrate E arr f) (.int i) s = _
    unfold hydrateBody
    dsimp only [pyIndex]
    rw [if_neg hbound, hcache]
    dsimp only
    rw [hval]
    dsimp only
    rw [hd]
    dsimp only
    rw [hsk]
    dsimp only
    rw [hm]
    dsimp only
    rw [hbg]
    dsimp only
    rw [hr]
    dsimp only
    unfold hydrateRegex
    dsimp only
    rw [hpf]

/-- Witness for the amended C3 at concrete slots. -/
theorem regex_fallback_pair_witness :
    hydrate extAll [.obj [("state", .int 1)], .obj [("$r", .null)]] 2
      (.int 1) ⟨[], []⟩ =
      .ok (.rawObj (.obj [("$r", .null)]))
        (stIns ⟨[], []⟩ 1 (.rawObj (.obj [("$r", .null)]))) ∧
    hydrate extAll [.obj [("state", .int 1)],
        .obj [("$r", .str "invalid_regex")]] 2 (.int 1) ⟨[], []⟩ =
      .ok (.str "invalid_regex")
        (stIns ⟨[], []⟩ 1 (.str "invalid_regex")) :=
  ⟨regex_fallback_pair.1 extAll
     [.obj [("state", .int 1)], .obj [("$r", .null)]] 1 1 ⟨[], []⟩
     [("$r", .null)] (by decide) rfl rfl rfl rfl rfl rfl rfl,
   regex_fallback_pair.2 extAll
     [.obj [("state", .int 1)], .obj [("$r", .str "invalid_regex")]] 1 1
     ⟨[], []⟩ [("$r", .str "invalid_regex")] "invalid_regex"
     (by decide) rfl rfl rfl rfl rfl rfl rfl rfl⟩

/-- C4 (counterexample): a bigint-tagged SLOT `{"$b": null}` does
raise — `int(None)` throws `TypeError`, which the branch's
`except ValueError` does not catch; the exception escapes the hydrator
and `deserialize_nuxt3_data` falls back to returning the whole raw
input rather than the mapping in place. -/
theorem bigint_null_payload_raises :
    hydrate extAll [.obj [("state", .int 1)], .obj [("$b", .null)]] 3
      (.int 1) ⟨[], []⟩ = .err ∧
    deserialize_nuxt3_data extAll jparseNone
      (.arr [.obj [("state", .int 1)], .obj [("$b", .null)]]) false =
      .ok (.raw (.arr [.obj [("state", .int 1)],
                       .obj [("$b", .null)]])) :=
  ⟨rfl, rfl⟩

/-- C4 (amended): the concrete two-slot example holds — the NESTED
tagged mapping `{"$b": null}` is a non-integer child and is passed
through unchanged, so no exception is raised and the field equals the
original mapping; and a bigint-tagged SLOT whose payload is a string
rejected by `int()` never raises and decodes to the original mapping.
(A non-string, non-numeric payload such as `null` instead raises a
`TypeError` out of the hydrator — see the counterexample.) -/
theorem bigint_fallbacks :
    (deserialize_nuxt3_data extAll jparseNone
        (.arr [.obj [("state", .int 1)],
               .obj [("bad_bigint", .obj [("$b", .null)])]]) false =
      .ok (.hyd (.ref 0)
        [.dict [(.str "bad_bigint",
                 .rawObj (.obj [("$b", .null)]))]])) ∧
    (∀ (E : Ext) (arr : List JVal) (f : Nat) (i : Int) (s : St)
       (kvs : List (String × JVal)) (t : String),
       ¬(i < 0 ∨ (arr.length : Int) ≤ i) →
       List.lookup i s.cache = none →
       arr.getD i.toNat .null = .obj kvs →
       List.lookup "$d" kvs = none →
       List.lookup "$s" kvs = none →
       List.lookup "$m" kvs = none →
       List.lookup "$b" kvs = some (.str t) →
       pyIntOfString t = none →
       hydrate E arr (f + 1) (.int i) s =
         .ok (.rawObj (.obj kvs)) (stIns s i (.rawObj (.obj kvs)))) := by
  constructor
  · rfl
  · intro E arr f i s kvs t hbound hcache hval hd hsk hm hbg hint
    show hydrateBody E arr (hydrate E arr f) (.int i) s = _
    unfold hydrateBody
    dsimp only [pyIndex]
    rw [if_neg hbound, hcache]
    dsimp only
    rw [hval]
    dsimp only
    rw [hd]
    dsimp only
    rw [hsk]
    dsimp only
    rw [hm]
    dsimp only
    rw [hbg]
    dsimp only
    unfold hydrateBigint
    dsimp only
    rw [hint]

/-- Witness for the amended C4 at the repository test's own malformed
bigint slot. -/
theorem bigint_fallbacks_witness :
    pyIntOfString "not_a_number" = none ∧
    hydrate extAll [.obj [("state", .int 1)],
        .obj [("$b", .str "not_a_number")]] 2 (.int 1) ⟨[], []⟩ =
      .ok (.rawObj (.obj [("$b", .str "not_a_number")]))
        (stIns ⟨[], []⟩ 1
          (.rawObj (.obj [("$b", .str "not_a_number")]))) :=
  ⟨by decide,
   bigint_fallbacks.2 extAll
     [.obj [("state", .int 1)], .obj [("$b", .str "not_a_number")]] 1 1
     ⟨[], []⟩ [("$b", .str "not_a_number")] "not_a_number"
     (by decide) rfl rfl rfl rfl rfl rfl (by decide)⟩

/-- In non-text mode the entry point never raises. -/
theorem deserialize_false_ok (E : Ext) (jp : String → Option JVal)
    (v : JVal) :
    deserialize_nuxt3_data E jp v false = .ok (deserializeParsed E v) :=
  rfl

/-- `parse_nuxt_json` raises only `DataParsingError`, never the
"no data" domain error. -/
theorem parse_nuxt_json_not_notfound (E : Ext)
    (jp : String → Option JVal) (raw : String) (dz : Bool) :
    parse_nuxt_json E jp raw dz ≠ .error .nuxtDataNotFound := by
  unfold parse_nuxt_json
  split
  · intro hc; cases hc
  · split
    · intro hc; cases hc
    · split
      · rw [deserialize_false_ok]
        dsimp only
        intro hc; cases hc
      · intro hc; cases hc

/-- C6: `deserialize_nuxt3_data` with an already-parsed input returns
any non-sequence unchanged without error, returns the empty sequence
unchanged, hydrates from root index 1 with a fresh empty cache (and
heap) when there are at least two slots, and from root index 0 when
there is exactly one slot. -/
theorem deserialize_root_selection :
    (∀ (E : Ext) (jp : String → Option JVal) (v : JVal),
        isArr v = false →
        deserialize_nuxt3_data E jp v false = .ok (.raw v)) ∧
    (∀ (E : Ext) (jp : String → Option JVal),
        deserialize_nuxt3_data E jp (.arr []) false =
          .ok (.raw (.arr []))) ∧
    (∀ (E : Ext) (jp : String → Option JVal) (slots : List JVal)
       (v : HVal) (s : St),
        2 ≤ slots.length →
        hydrate E slots (slots.length + 1) (.int 1) ⟨[], []⟩ = .ok v s →
        deserialize_nuxt3_data E jp (.arr slots) false =
          .ok (.hyd v s.heap)) ∧
    (∀ (E : Ext) (jp : String → Option JVal) (slots : List JVal)
       (v : HVal) (s : St),
        slots.length = 1 →
        hydrate E slots (slots.length + 1) (.int 0) ⟨[], []⟩ = .ok v s →
        deserialize_nuxt3_data E jp (.arr slots) false =
          .ok (.hyd v s.heap)) := by
  refine ⟨?_, ?_, ?_, ?_⟩
  · intro E jp v hv
    cases v with
    | arr l => cases hv
    | null => rfl
    | bool b => rfl
    | int n => rfl
    | str t => rfl
    | obj l => rfl
  · intro E jp
    rfl
  · intro E jp slots v s hlen hok
    have hne : ¬(slots.isEmpty = true) := by
      cases slots with
      | nil => simp at hlen
      | cons a l => intro hemp; cases hemp
    show Except.ok (deserializeParsed E (.arr slots)) = _
    simp only [deserializeParsed]
    rw [if_neg hne, if_pos hlen, hok]
  · intro E jp slots v s hlen hok
    have hne : ¬(slots.isEmpty = true) := by
      cases slots with
      | nil => simp at hlen
      | cons a l => intro hemp; cases hemp
    have h2 : ¬(2 ≤ slots.length) := by omega
    show Except.ok (deserializeParsed E (.arr slots)) = _
    simp only [deserializeParsed]
    rw [if_neg hne, if_neg h2, hok]

/-- Witness for C6 at concrete inputs. -/
theorem deserialize_root_selection_witness :
    isArr (.obj [("simple", .str "object")]) = false ∧
    deserialize_nuxt3_data extAll jparseNone
      (.obj [("simple", .str "object")]) false =
      .ok (.raw (.obj [("simple", .str "object")])) ∧
    deserialize_nuxt3_data extAll jparseNone (.arr []) false =
      .ok (.raw (.arr [])) ∧
    deserialize_nuxt3_data extAll jparseNone (.arr [.str "m", .str "x"])
      false = .ok (.hyd (.str "x") []) ∧
    deserialize_nuxt3_data extAll jparseNone (.arr [.str "only"]) false =
      .ok (.hyd (.str "only") []) :=
  ⟨rfl,
   deserialize_root_selection.1 extAll jparseNone
     (.obj [("simple", .str "object")]) rfl,
   deserialize_root_selection.2.1 extAll jparseNone,
   deserialize_root_selection.2.2.1 extAll jparseNone
     [.str "m", .str "x"] (.str "x") ⟨[], [(1, .str "x")]⟩
     (by decide) rfl,
   deserialize_root_selection.2.2.2 extAll jparseNone
     [.str "only"] (.str "only") ⟨[], [(0, .str "only")]⟩ rfl rfl⟩

/-- C9: `parse_nuxt_result` raises the "no data" domain error
(`NuxtDataNotFound`) exactly when the extraction result is not a
(truthy) mapping or its `data`/`method` field is falsy; and when both
fields are truthy but the method tag is neither `"element"` nor
`"window"` it raises the hard parsing error (`DataParsingError`). -/
theorem parse_nuxt_result_error_classes :
    (∀ (E : Ext) (jp : String → Option JVal) (er : JVal) (dz : Bool),
        parse_nuxt_result E jp er dz = .error .nuxtDataNotFound ↔
        noDataCond er = true) ∧
    (∀ (E : Ext) (jp : String → Option JVal)
       (kvs : List (String × JVal)) (dz : Bool),
        noDataCond (.obj kvs) = false →
        jStrEq (objGet kvs "method") "element" = false →
        jStrEq (objGet kvs "method") "window" = false →
        parse_nuxt_result E jp (.obj kvs) dz = .error .dataParsing) := by
  constructor
  · intro E jp er dz
    cases er with
    | null => exact ⟨fun _ => rfl, fun _ => rfl⟩
    | bool b => exact ⟨fun _ => rfl, fun _ => rfl⟩
    | int n => exact ⟨fun _ => rfl, fun _ => rfl⟩
    | str t => exact ⟨fun _ => rfl, fun _ => rfl⟩
    | arr l => exact ⟨fun _ => rfl, fun _ => rfl⟩
    | obj kvs =>
      cases kvs with
      | nil => exact ⟨fun _ => rfl, fun _ => rfl⟩
      | cons kv rest =>
        unfold parse_nuxt_result
        dsimp only
        rw [if_neg (show ¬((!pyTruthy (JVal.obj (kv :: rest))) = true)
          from fun hc => nomatch hc)]
        rcases hdm : (!pyTruthy (objGet (kv :: rest) "data") ||
            !pyTruthy (objGet (kv :: rest) "method")) with _ | _
        · rw [if_neg Bool.false_ne_true]
          have hnc : noDataCond (.obj (kv :: rest)) = false := hdm
          rw [hnc]
          constructor
          · intro hc
            exfalso
            by_cases he :
                jStrEq (objGet (kv :: rest) "method") "element" = true
            · rw [if_pos he] at hc
              cases hdata : objGet (kv :: rest) "data" with
              | str content =>
                rw [hdata] at hc
                dsimp only at hc
                cases hpj : parse_nuxt_json E jp content dz with
                | ok d => rw [hpj] at hc; cases hc
                | error e =>
                  rw [hpj] at hc
                  dsimp only at hc
                  cases hc
                  exact parse_nuxt_json_not_notfound E jp content dz hpj
              | null => rw [hdata] at hc; cases hc
              | bool b => rw [hdata] at hc; cases hc
              | int n => rw [hdata] at hc; cases hc
              | arr l => rw [hdata] at hc; cases hc
              | obj l => rw [hdata] at hc; cases hc
            · rw [if_neg he] at hc
              by_cases hw :
                  jStrEq (objGet (kv :: rest) "method") "window" = true
              · rw [if_pos hw] at hc
                cases dz with
                | true =>
                  rw [if_pos (rfl : (true : Bool) = true)] at hc
                  cases hdata : objGet (kv :: rest) "data" with
                  | arr l =>
                    rw [hdata] at hc
                    dsimp only at hc
                    rw [deserialize_false_ok] at hc
                    dsimp only at hc
                    cases hc
                  | null => rw [hdata] at hc; cases hc
                  | bool b => rw [hdata] at hc; cases hc
                  | int n => rw [hdata] at hc; cases hc
                  | str t => rw [hdata] at hc; cases hc
                  | obj l => rw [hdata] at hc; cases hc
                | false =>
                  rw [if_neg Bool.false_ne_true] at hc
                  cases hc
              · rw [if_neg hw] at hc
                cases hc
          · intro hc
            exact absurd hc Bool.false_ne_true
        · rw [if_pos (rfl : (true : Bool) = true)]
          have hnc : noDataCond (.obj (kv :: rest)) = true := hdm
          rw [hnc]
          exact ⟨fun _ => rfl, fun _ => rfl⟩
  · intro E jp kvs dz hnd he hw
    cases kvs with
    | nil => exact absurd hnd (by decide)
    | cons kv rest =>
      unfold parse_nuxt_result
      dsimp only
      rw [if_neg (show ¬((!pyTruthy (JVal.obj (kv :: rest))) = true)
        from fun hc => nomatch hc)]
      have hdm : (!pyTruthy (objGet (kv :: rest) "data") ||
          !pyTruthy (objGet (kv :: rest) "method")) = false := hnd
      rw [if_neg (by rw [hdm]; exact Bool.false_ne_true),
          if_neg (by rw [he]; exact Bool.false_ne_true),
          if_neg (by rw [hw]; exact Bool.false_ne_true)]

/-- Witness for C9 at concrete extraction results. -/
theorem parse_nuxt_result_error_classes_witness :
    (parse_nuxt_result extAll jparseNone
        (.obj [("data", .str "x"), ("method", .null)]) true =
        .error .nuxtDataNotFound ↔
      noDataCond (.obj [("data", .str "x"), ("method", .null)]) = true) ∧
    noDataCond (.obj [("data", .str "x"),
      ("method", .str "bogus")]) = false ∧
    jStrEq (objGet [("data", .str "x"), ("method", .str "bogus")]
      "method") "element" = false ∧
    jStrEq (objGet [("data", .str "x"), ("method", .str "bogus")]
      "method") "window" = false ∧
    parse_nuxt_result extAll jparseNone
      (.obj [("data", .str "x"), ("method", .str "bogus")]) true =
      .error .dataParsing :=
  ⟨parse_nuxt_result_error_classes.1 extAll jparseNone
     (.obj [("data", .str "x"), ("method", .null)]) true,
   by decide, by decide, by decide,
   parse_nuxt_result_error_classes.2 extAll jparseNone
     [("data", .str "x"), ("method", .str "bogus")] true
     (by decide) (by decide) (by decide)⟩

end NuxtScraper
